import Mathlib

/-!
Shallow embedding of the XRPL bridge's verification and bridging pipeline
(memo codec, candidate extractor, five-stage verifier, action queue),
translated from the Rust sources under `src/xrpl_bridge/src`.

Strings are modelled as lists of characters (`Str`).  Rust's
`str::to_uppercase` / `to_lowercase` and `eq_ignore_ascii_case` are modelled
with Lean's ASCII `Char.toUpper` / `Char.toLower`; every concrete input used
below is ASCII, where the two agree.  Machine integers are modelled as `Nat`
with explicit bounds where overflow matters (`u64`, `u128` parsing, the `u8`
retry counter).
-/

abbrev Str := List Char

/-- Finds the first occurrence of `sep` and returns the pieces before and
after it; `none` when `sep` does not occur.  This models Rust's
`str::splitn(2, sep)` producing two pieces (`some`) or one piece (`none`). -/
def breakAtChar (sep : Char) : Str → Option (Str × Str)
  | [] => none
  | c :: rest =>
      if c = sep then some ([], rest)
      else
        match breakAtChar sep rest with
        | none => none
        | some (a, b) => some (c :: a, b)

/-- Strips one optional leading plus sign, as Rust's integer `FromStr`
implementations do. -/
def stripPlus : Str → Str
  | '+' :: rest => rest
  | s => s

/-- Value of a decimal digit string (most significant digit first). -/
def natOfDigits (s : Str) : Nat :=
  s.foldl (fun a c => a * 10 + (c.toNat - 48)) 0

/-- Rust's `str::parse::<u128>()`: one optional leading `+`, then at least
one ASCII digit, value below 2^128 (overflow is a parse error). -/
def parseU128 (s : Str) : Option Nat :=
  let t := stripPlus s
  if t = [] then none
  else if t.all Char.isDigit then
    let n := natOfDigits t
    if n < 2 ^ 128 then some n else none
  else none

/-- Rust's `str::parse::<u64>()`: one optional leading `+`, then at least
one ASCII digit, value below 2^64 (overflow is a parse error). -/
def parseU64 (s : Str) : Option Nat :=
  let t := stripPlus s
  if t = [] then none
  else if t.all Char.isDigit then
    let n := natOfDigits t
    if n < 2 ^ 64 then some n else none
  else none

/-- Association-list lookup, modelling `HashMap::get`. -/
def lookupKV (l : List (Str × Str)) (k : Str) : Option Str :=
  (l.find? (fun kv => kv.1 = k)).map (fun kv => kv.2)

/-- Association-list membership of a key, modelling `HashMap::contains_key`. -/
def hasKeyKV (l : List (Str × Str)) (k : Str) : Bool :=
  l.any (fun kv => kv.1 = k)

/-- Association-list insertion, modelling `HashMap::insert`: replaces the
value when the key is present, otherwise appends a fresh entry. -/
def insertKV (l : List (Str × Str)) (k v : Str) : List (Str × Str) :=
  if hasKeyKV l k then l.map (fun kv => if kv.1 = k then (k, v) else kv)
  else l ++ [(k, v)]

/-- ASCII upper-casing of a key, modelling `str::to_uppercase` on the ASCII
inputs this codec handles. -/
def upperStr (s : Str) : Str := s.map Char.toUpper

/-- Action kinds of the bridge (`XRPLActionType` in `xrpl/types.rs`). -/
inductive XRPLActionType
  | Tip
  | NFTSale
  | TokenSwap
deriving DecidableEq

/-- Memo codec errors (`MemoError` in `xrpl/memo.rs`). -/
inductive MemoError
  | MalformedFormat
  | MissingField (field : Str)
  | InvalidPrincipal (value : Str)
  | InvalidNat (value : Str)
  | UnknownActionType
deriving DecidableEq

/-- Parsed memo of the memo codec (`ParsedMemo` in `xrpl/memo.rs`); the
`HashMap<String, String>` of fields is modelled as an association list with
`insertKV` semantics. -/
structure ParsedMemoC where
  action : XRPLActionType
  fields : List (Str × Str)
deriving DecidableEq

/-- Field-parsing loop of `parse_memo_string`: each remaining segment must
contain a key/value separator, keys are upper-cased, later occurrences of a
key overwrite earlier ones. -/
def parseFieldsAux (acc : List (Str × Str)) : List Str → Except MemoError (List (Str × Str))
  | [] => .ok acc
  | p :: ps =>
      match breakAtChar ':' p with
      | none => .error .MalformedFormat
      | some (k, v) => parseFieldsAux (insertKV acc (upperStr k) v) ps

/-- Memo codec decoder `parse_memo_string` (`xrpl/memo.rs`): splits on `|`,
the first segment selects the action kind from TIP / NFTSALE / TOKENSWAP
(case-sensitive), remaining segments are key/value fields. -/
def parseMemoString (raw : Str) : Except MemoError ParsedMemoC :=
  let parts := raw.splitOn '|'
  match parts with
  | [] => .error .MalformedFormat
  | p0 :: rest =>
      if p0 = "TIP".data then
        (parseFieldsAux [] rest).map (fun f => ⟨.Tip, f⟩)
      else if p0 = "NFTSALE".data then
        (parseFieldsAux [] rest).map (fun f => ⟨.NFTSale, f⟩)
      else if p0 = "TOKENSWAP".data then
        (parseFieldsAux [] rest).map (fun f => ⟨.TokenSwap, f⟩)
      else .error .UnknownActionType

/-- Memo codec encoder `reconstruct_memo` (`xrpl/memo.rs`): action-kind
segment followed by `key:value` segments, joined with `|`. -/
def reconstructMemo (m : ParsedMemoC) : Str :=
  let actionSeg : Str :=
    match m.action with
    | .Tip => "TIP".data
    | .NFTSale => "NFTSALE".data
    | .TokenSwap => "TOKENSWAP".data
  List.intercalate ['|'] (actionSeg :: m.fields.map (fun kv => kv.1 ++ ':' :: kv.2))

/-- Typed accessor `extract_nat_from_memo` (`xrpl/memo.rs`): looks the
upper-cased key up and parses the value with Rust's `u128` parser. -/
def extractNatFromMemo (m : ParsedMemoC) (key : Str) : Except MemoError Nat :=
  match lookupKV m.fields (upperStr key) with
  | some val =>
      match parseU128 val with
      | some n => .ok n
      | none => .error (.InvalidNat val)
  | none => .error (.MissingField key)

/-- ICP principals (`candid::Principal`) are modelled by their textual form.
`Principal::from_text(..).ok()` is modelled as always succeeding: the
verifier only stores the result in an `Option` field and no property proved
here depends on which texts the real decoder rejects. -/
abbrev PrincipalT := Str

/-- Model of `Principal::from_text(s).ok()`; see `PrincipalT`. -/
def principalFromText (s : Str) : Option PrincipalT := some s

/-- Parsed memo of the verifier (`ParsedMemo` in `xrpl/types.rs`): the
action kind plus optional ARTIST / NFT / UUID fields. -/
structure ParsedMemoV where
  action : XRPLActionType
  artist : Option PrincipalT
  nft_id : Option Nat
  uuid : Option Str
deriving DecidableEq

/-- Verifier errors (`VerifierError` in `xrpl/types.rs`). -/
inductive VerifierErrorT
  | ReplayDetected (h : Str)
  | InvalidTag (tag : Nat)
  | MemoParseFailed (msg : Str)
  | InsufficientAmount (actual expected : Nat)
  | InvalidDestination (dest : Str)
  | Internal (msg : Str)
  | InvalidMemoFormat
  | UnknownAction
deriving DecidableEq

/-- Candidate transaction (`CandidateXRPLTx` in `xrpl/types.rs`).  The
candid `Nat` amount is an unbounded natural; the `u32` destination tag is a
natural below 2^32 (no arithmetic is performed on it). -/
structure CandidateXRPLTx where
  tx_hash : Str
  sender : Str
  destination : Str
  destination_tag : Option Nat
  amount : Nat
  memo : Str
deriving DecidableEq

/-- Verified transaction (`VerifiedXRPLTx` in `xrpl/types.rs`). -/
structure VerifiedXRPLTx where
  tx_hash : Str
  action : XRPLActionType
  sender : Str
  amount : Nat
  memo : ParsedMemoV
  timestamp : Nat
deriving DecidableEq

/-- Tag resolution `parse_tag` (`xrpl/verifier.rs`): 1001 is a Tip, 2001 an
NFT sale, 3001 a token swap, everything else unmapped. -/
def parseTag (tx : CandidateXRPLTx) : Option XRPLActionType :=
  match tx.destination_tag with
  | some 1001 => some .Tip
  | some 2001 => some .NFTSale
  | some 3001 => some .TokenSwap
  | _ => none

/-- Strips a literal leading marker from a segment, modelling
`str::strip_prefix`. -/
def stripMarker (p l : Str) : Option Str :=
  if p.isPrefixOf l then some (l.drop p.length) else none

/-- One iteration of the field loop of the verifier's `parse_memo`
(`xrpl/verifier.rs`): an `ARTIST:` segment overwrites the artist (possibly
with `none`), an `NFT:` segment overwrites the id only when the value parses
as `u128`, a `UUID:` segment always overwrites the uuid, and any other
segment is ignored. -/
def applyMemoSeg (st : Option PrincipalT × Option Nat × Option Str) (part : Str) :
    Option PrincipalT × Option Nat × Option Str :=
  match stripMarker "ARTIST:".data part with
  | some r => (principalFromText r, st.2.1, st.2.2)
  | none =>
    match stripMarker "NFT:".data part with
    | some r =>
        match parseU128 r with
        | some n => (st.1, some n, st.2.2)
        | none => st
    | none =>
      match stripMarker "UUID:".data part with
      | some r => (st.1, st.2.1, some r)
      | none => st

/-- Memo decoding stage of the verifier, `parse_memo` (`xrpl/verifier.rs`):
splits on `|`, maps the first segment TIP / NFT / SWAP to the action kind
(anything else is `UnknownAction`) and folds the field loop over the rest.
The guard for an empty split result mirrors the source's `parts.len() < 1`
check. -/
def parseMemoStage (memo : Str) : Except VerifierErrorT ParsedMemoV :=
  let parts := memo.splitOn '|'
  match parts with
  | [] => .error .InvalidMemoFormat
  | p0 :: rest =>
      let actionOpt : Option XRPLActionType :=
        if p0 = "TIP".data then some .Tip
        else if p0 = "NFT".data then some .NFTSale
        else if p0 = "SWAP".data then some .TokenSwap
        else none
      match actionOpt with
      | none => .error .UnknownAction
      | some action =>
          let st := rest.foldl applyMemoSeg (none, none, none)
          .ok ⟨action, st.1, st.2.1, st.2.2⟩

/-- Amount floor check `validate_amount` (`xrpl/verifier.rs`). -/
def validateAmount (tx : CandidateXRPLTx) (expected_min : Nat) : Bool :=
  expected_min ≤ tx.amount

/-- ASCII-case-insensitive string equality, Rust's `eq_ignore_ascii_case`. -/
def eqIgnoreAsciiCase (a b : Str) : Bool :=
  a.map Char.toLower = b.map Char.toLower

/-- Destination check `is_bridge_destination` (`xrpl/verifier.rs`): the
configured bridge address comes from the `XRPL_BRIDGE_ADDRESS` environment
variable, modelled as an optional field of the verifier state; an unset
address fails the check. -/
def isBridgeDestination (bridgeAddr : Option Str) (addr : Str) : Bool :=
  match bridgeAddr with
  | some b => eqIgnoreAsciiCase addr b
  | none => false

/-- Mutable state the verifier runs against: the `REPLAY_CACHE` set and the
configured bridge address. -/
structure VerifState where
  replay : List Str
  bridgeAddr : Option Str
deriving DecidableEq

/-- Replay check-and-insert `is_replay` (`xrpl/verifier.rs`): returns
whether the hash was already present and inserts it when it was not. -/
def isReplayStep (h : Str) (cache : List Str) : Bool × List Str :=
  if cache.contains h then (true, cache) else (false, h :: cache)

/-- Five-stage admission pipeline `verify_candidate_tx`
(`xrpl/verifier.rs`): replay check-and-insert, tag resolution, memo
decoding, amount floor (fixed at 1000), destination match; success builds a
`VerifiedXRPLTx` stamped with the supplied current time. -/
def verifyCandidateTx (st : VerifState) (now : Nat) (tx : CandidateXRPLTx) :
    Except VerifierErrorT VerifiedXRPLTx × VerifState :=
  let rep := isReplayStep tx.tx_hash st.replay
  let st' : VerifState := { st with replay := rep.2 }
  if rep.1 then (.error (.ReplayDetected tx.tx_hash), st')
  else
    match parseTag tx with
    | none => (.error (.InvalidTag (tx.destination_tag.getD 0)), st')
    | some action =>
        match parseMemoStage tx.memo with
        | .error e => (.error e, st')
        | .ok memo =>
            if validateAmount tx 1000 = false then
              (.error (.InsufficientAmount tx.amount 1000), st')
            else if isBridgeDestination st.bridgeAddr tx.destination = false then
              (.error (.InvalidDestination tx.destination), st')
            else
              (.ok ⟨tx.tx_hash, action, tx.sender, tx.amount, memo, now⟩, st')

/-- Queueable action (`PendingAction` in `state/queue.rs`); principals are
modelled by their text, candid naturals by `Nat`. -/
inductive PendingAction
  | Tip (artist : PrincipalT) (amount : Nat) (tx_hash : Str) (uuid : Str)
  | NFTSale (nft_id : Nat) (buyer : PrincipalT) (price : Nat) (tx_hash : Str) (uuid : Str)
  | TokenSwap (artist : PrincipalT) (amount : Nat) (tx_hash : Str) (uuid : Str)
deriving DecidableEq

/-- Queue errors (`QueueError` in `state/queue.rs`). -/
inductive QueueError
  | AlreadyExists
  | NotFound
  | WriteFailure
  | ParseError
  | Unknown
deriving DecidableEq

/-- Status metadata wrapper (`ActionWrapper` in `state/queue.rs`); the `u8`
retry counter is a natural kept below 256 by a wrapping increment. -/
structure ActionWrapper where
  action : PendingAction
  retries : Nat
  last_attempt : Nat
  failed : Bool
deriving DecidableEq

/-- Shared mutable state of the action store: the `PENDING_QUEUE` map
(association list keyed by tx hash) and the `PROCESSED_TXS` set. -/
structure QState where
  pending : List (Str × ActionWrapper)
  processed : List Str
deriving DecidableEq

/-- The initial, empty action store. -/
def QState.empty : QState := ⟨[], []⟩

/-- Key extraction used by `enqueue_action`: the tx hash of any variant. -/
def actionTxHash : PendingAction → Str
  | .Tip _ _ h _ => h
  | .NFTSale _ _ _ h _ => h
  | .TokenSwap _ _ h _ => h

/-- Key membership in the pending map, modelling `HashMap::contains_key`. -/
def isKeyOf (l : List (Str × ActionWrapper)) (h : Str) : Bool :=
  l.any (fun kv => kv.1 = h)

/-- Key removal from the pending map, modelling `HashMap::remove` (the map
never holds two entries with the same key). -/
def removeKey (l : List (Str × ActionWrapper)) (h : Str) : List (Str × ActionWrapper) :=
  l.filter (fun kv => kv.1 ≠ h)

/-- Set insertion into the processed set, modelling `HashSet::insert`. -/
def insertProcessed (l : List Str) (h : Str) : List Str :=
  if l.contains h then l else h :: l

/-- Direct enqueue `enqueue_action` (`state/queue.rs`): rejects a tx hash
present in the pending map or the processed set, otherwise inserts a fresh
wrapper with zero retries, the current time and a cleared failure flag. -/
def enqueueAction (s : QState) (now : Nat) (a : PendingAction) :
    Except QueueError Unit × QState :=
  let h := actionTxHash a
  if isKeyOf s.pending h then (.error .AlreadyExists, s)
  else if s.processed.contains h then (.error .AlreadyExists, s)
  else (.ok (), { s with pending := s.pending ++ [(h, ⟨a, 0, now, false⟩)] })

/-- Verified-transaction enqueue `enqueue_verified_tx` (`state/queue.rs`):
after the same duplicate check, a Tip or NFT-sale verified transaction is
turned into a `PendingAction` (an NFT sale reuses the memo's artist as the
buyer); any other action kind is rejected with `ParseError`. -/
def enqueueVerifiedTx (s : QState) (now : Nat) (tx : VerifiedXRPLTx) :
    Except QueueError Unit × QState :=
  let h := tx.tx_hash
  if isKeyOf s.pending h then (.error .AlreadyExists, s)
  else if s.processed.contains h then (.error .AlreadyExists, s)
  else
    let actionRes : Except QueueError PendingAction :=
      match tx.action with
      | .Tip =>
          match tx.memo.artist with
          | none => .error .ParseError
          | some artist => .ok (.Tip artist tx.amount h (tx.memo.uuid.getD []))
      | .NFTSale =>
          match tx.memo.artist with
          | none => .error .ParseError
          | some artist =>
              match tx.memo.nft_id with
              | none => .error .ParseError
              | some nft_id => .ok (.NFTSale nft_id artist tx.amount h (tx.memo.uuid.getD []))
      | .TokenSwap => .error .ParseError
    match actionRes with
    | .error e => (.error e, s)
    | .ok a => (.ok (), { s with pending := s.pending ++ [(h, ⟨a, 0, now, false⟩)] })

/-- Finalization `mark_action_finalized` (`state/queue.rs`): requires the
hash to be pending, removes it from the pending map and inserts it into the
processed set. -/
def markActionFinalized (s : QState) (h : Str) : Except QueueError Unit × QState :=
  if isKeyOf s.pending h then
    (.ok (), ⟨removeKey s.pending h, insertProcessed s.processed h⟩)
  else (.error .NotFound, s)

/-- Failure marking `mark_action_failed` (`state/queue.rs`): on a pending
hash, sets the failure flag, increments the `u8` retry counter (wrapping)
and refreshes the last-attempt time; otherwise `NotFound`. -/
def markActionFailed (s : QState) (h : Str) (now : Nat) : Except QueueError Unit × QState :=
  if isKeyOf s.pending h then
    (.ok (), { s with pending := s.pending.map (fun kv =>
        if kv.1 = h then
          (kv.1, ⟨kv.2.action, (kv.2.retries + 1) % 256, now, true⟩)
        else kv) })
  else (.error .NotFound, s)

/-- Administrative wipe `clear_queue` (`state/queue.rs`): empties the
pending map, leaving the processed set untouched. -/
def clearQueue (s : QState) : QState := { s with pending := [] }

/-- Pending-map size `queue_size` (`state/queue.rs`). -/
def queueSize (s : QState) : Nat := s.pending.length

/-- Existence check `action_exists` (`state/queue.rs`). -/
def actionExists (s : QState) (h : Str) : Bool :=
  isKeyOf s.pending h || s.processed.contains h

/-- Dequeue `dequeue_pending_action` (`state/queue.rs`): takes the first
entry of the pending map — whatever its failure flag — removes it by key
and returns its action; `none` on an empty map.  The hash map's iteration
order is modelled by the list order. -/
def dequeuePendingAction (s : QState) : Option PendingAction × QState :=
  match s.pending with
  | [] => (none, s)
  | (h, w) :: _ => (some w.action, { s with pending := removeKey s.pending h })

/-- Operations of the action store quantified over by the reachable-state
invariant: direct enqueue, dequeue, finalization, failure marking and the
administrative wipe. -/
inductive QOp
  | enq (a : PendingAction) (now : Nat)
  | deq
  | fin (h : Str)
  | fail (h : Str) (now : Nat)
  | wipe
deriving DecidableEq

/-- State transition of one operation (results discarded). -/
def applyOp (s : QState) : QOp → QState
  | .enq a now => (enqueueAction s now a).2
  | .deq => (dequeuePendingAction s).2
  | .fin h => (markActionFinalized s h).2
  | .fail h now => (markActionFailed s h now).2
  | .wipe => clearQueue s

/-- State reached from the empty store by a sequence of operations. -/
def runOps (ops : List QOp) : QState :=
  ops.foldl applyOp QState.empty

/-- Optional memo sub-fields of a raw record (`MemoField` in
`xrpl/types.rs`). -/
structure MemoFieldT where
  memo_type : Option Str
  memo_data : Option Str
  memo_format : Option Str
deriving DecidableEq

/-- Raw transaction record from the transport (`XRPLRawTx` in
`xrpl/types.rs`); the `u32` destination tag, the `u64` ledger index and the
`u32` sequence are naturals (no arithmetic is performed on them). -/
structure XRPLRawTx where
  account : Str
  destination : Option Str
  amount : Option Str
  destination_tag : Option Nat
  tx_type : Option Str
  hash : Str
  memo : Option Str
  ledger_index : Nat
  sequence : Nat
  memos : Option (List MemoFieldT)
deriving DecidableEq

/-- Coarse filter `process_incoming_tx` (`xrpl/client.rs`): requires the
exact type tag `Payment`, a present destination tag, a memo starting with
`TIP|` or `SALE|`, and an amount that parses as `u64`; every other record
yields `none`. -/
def processIncomingTx (tx : XRPLRawTx) : Option CandidateXRPLTx :=
  match tx.tx_type with
  | none => none
  | some t =>
      if t ≠ "Payment".data then none
      else if tx.destination_tag.isNone then none
      else
        match tx.memo with
        | none => none
        | some memo =>
            if !("TIP|".data.isPrefixOf memo) && !("SALE|".data.isPrefixOf memo) then none
            else
              match tx.amount with
              | none => none
              | some amount_str =>
                  match parseU64 amount_str with
                  | none => none
                  | some amount_drops =>
                      some ⟨tx.hash, tx.account, tx.destination.getD [],
                            tx.destination_tag, amount_drops, memo⟩

/-- Pre-filter `is_relevant_payment_tx` (`xrpl/client.rs`): case-insensitive
type tag `payment`, destination tag present, amount parsing as `u64` and
non-zero. -/
def isRelevantPaymentTx (tx : XRPLRawTx) : Bool :=
  match tx.tx_type with
  | none => false
  | some t =>
      if t.map Char.toLower ≠ "payment".data then false
      else if tx.destination_tag.isNone then false
      else
        match tx.amount with
        | none => false
        | some amount_str =>
            match parseU64 amount_str with
            | none => false
            | some amt => amt ≠ 0

/-- Candidate extraction path of `handle_xrpl_event` (`xrpl/client.rs`): a
raw record becomes a candidate exactly when it passes
`is_relevant_payment_tx` and `process_incoming_tx` admits it. -/
def extractCandidate (tx : XRPLRawTx) : Option CandidateXRPLTx :=
  if isRelevantPaymentTx tx then processIncomingTx tx else none

theorem breakAtChar_append (sep : Char) (k v : Str) (hk : sep ∉ k) :
    breakAtChar sep (k ++ sep :: v) = some (k, v) := by
  induction k with
  | nil => simp [breakAtChar]
  | cons c rest ih =>
      have hcs : c ≠ sep := fun h => hk (h ▸ List.mem_cons_self c rest)
      have hrest : sep ∉ rest := fun h => hk (List.mem_cons_of_mem c h)
      simp only [List.cons_append, breakAtChar, if_neg hcs]
      rw [show rest.append (sep :: v) = rest ++ sep :: v from rfl, ih hrest]

theorem isKeyOf_append_self (l : List (Str × ActionWrapper)) (h : Str) (w : ActionWrapper) :
    isKeyOf (l ++ [(h, w)]) h = true := by
  simp [isKeyOf]

theorem isKeyOf_append_left (l l2 : List (Str × ActionWrapper)) (h : Str)
    (hl : isKeyOf l h = true) : isKeyOf (l ++ l2) h = true := by
  simp only [isKeyOf, List.any_append, Bool.or_eq_true]
  exact Or.inl hl

theorem mem_insertProcessed (l : List Str) (h a : Str) :
    a ∈ insertProcessed l h ↔ a ∈ l ∨ a = h := by
  unfold insertProcessed
  split
  · next hc =>
      rw [List.elem_iff] at hc
      constructor
      · exact fun ha => Or.inl ha
      · rintro (ha | rfl)
        · exact ha
        · exact hc
  · simp [or_comm]

theorem isKeyOf_removeKey (l : List (Str × ActionWrapper)) (h a : Str)
    (hk : isKeyOf (removeKey l h) a = true) : isKeyOf l a = true ∧ a ≠ h := by
  simp only [isKeyOf, removeKey, List.any_eq_true, List.mem_filter, decide_eq_true_eq] at hk ⊢
  rcases hk with ⟨kv, ⟨hmem, hne⟩, rfl⟩
  exact ⟨⟨kv, hmem, rfl⟩, hne⟩

theorem isKeyOf_removeKey_of_ne (l : List (Str × ActionWrapper)) (h a : Str)
    (hk : isKeyOf l a = true) (hne : a ≠ h) : isKeyOf (removeKey l h) a = true := by
  simp only [isKeyOf, removeKey, List.any_eq_true, List.mem_filter, decide_eq_true_eq] at hk ⊢
  rcases hk with ⟨kv, hmem, rfl⟩
  exact ⟨kv, ⟨hmem, by simpa using hne⟩, rfl⟩

theorem isKeyOf_map_keyFix (l : List (Str × ActionWrapper))
    (f : Str × ActionWrapper → Str × ActionWrapper) (hf : ∀ kv, (f kv).1 = kv.1) (h : Str) :
    isKeyOf (l.map f) h = isKeyOf l h := by
  simp only [isKeyOf, List.any_map]
  congr 1
  funext kv
  simp [Function.comp, hf kv]

theorem applyOp_preserves_disjoint (s : QState) (op : QOp)
    (hs : ∀ h, isKeyOf s.pending h = true → h ∉ s.processed) :
    ∀ h, isKeyOf (applyOp s op).pending h = true → h ∉ (applyOp s op).processed := by
  cases op with
  | enq a now =>
      simp only [applyOp, enqueueAction]
      split
      · exact hs
      · split
        · exact hs
        · next hc1 hc2 =>
            dsimp only
            intro h hkey
            simp only [isKeyOf, List.any_append, Bool.or_eq_true] at hkey
            rcases hkey with hk | hk
            · exact hs h hk
            · simp only [List.any_cons, List.any_nil, Bool.or_false, decide_eq_true_eq] at hk
              subst hk
              intro hmem
              exact absurd (List.elem_iff.mpr hmem) (by simpa using hc2)
  | deq =>
      simp only [applyOp, dequeuePendingAction]
      split
      · exact hs
      · intro h hk
        exact hs h (isKeyOf_removeKey _ _ _ hk).1
  | fin h0 =>
      simp only [applyOp, markActionFinalized]
      split
      · intro h hk
        obtain ⟨hold, hne⟩ := isKeyOf_removeKey _ _ _ hk
        intro hmem
        rcases (mem_insertProcessed _ _ _).mp hmem with hmem' | rfl
        · exact hs h hold hmem'
        · exact hne rfl
      · exact hs
  | fail h0 now =>
      simp only [applyOp, markActionFailed]
      split
      · intro h hk
        rw [isKeyOf_map_keyFix _ _ (fun kv => by split <;> rfl)] at hk
        exact hs h hk
      · exact hs
  | wipe =>
      intro h hk
      simp [applyOp, clearQueue, isKeyOf] at hk

/-- C1 (amended): in every state of the action store reachable by enqueue,
dequeue, finalization, failure marking and clearing, a tx hash is never in
both the pending map and the processed set; and every operation other than
dequeue and clear preserves membership of an admitted tx hash in the union
of the two. -/
theorem c1_amended :
    (∀ (ops : List QOp) (h : Str),
        isKeyOf (runOps ops).pending h = true → h ∉ (runOps ops).processed) ∧
    (∀ (s : QState) (op : QOp) (h : Str), op ≠ .deq → op ≠ .wipe →
        (isKeyOf s.pending h = true ∨ h ∈ s.processed) →
        (isKeyOf (applyOp s op).pending h = true ∨ h ∈ (applyOp s op).processed)) := by
  constructor
  · intro ops
    have main : ∀ (l : List QOp) (s : QState),
        (∀ h, isKeyOf s.pending h = true → h ∉ s.processed) →
        ∀ h, isKeyOf (l.foldl applyOp s).pending h = true →
          h ∉ (l.foldl applyOp s).processed := by
      intro l
      induction l with
      | nil => intro s hs; exact hs
      | cons op rest ih =>
          intro s hs
          exact ih _ (applyOp_preserves_disjoint s op hs)
    exact main ops QState.empty (by intro h hk; simp [QState.empty, isKeyOf] at hk)
  · intro s op h hne1 hne2 hin
    cases op with
    | enq a now =>
        simp only [applyOp, enqueueAction]
        split
        · exact hin
        · split
          · exact hin
          · dsimp only
            rcases hin with hk | hmem
            · exact Or.inl (isKeyOf_append_left _ _ _ hk)
            · exact Or.inr hmem
    | deq => exact absurd rfl hne1
    | fin h0 =>
        simp only [applyOp, markActionFinalized]
        split
        · dsimp only
          rcases hin with hk | hmem
          · by_cases heq : h = h0
            · subst heq
              exact Or.inr ((mem_insertProcessed _ _ _).mpr (Or.inr rfl))
            · exact Or.inl (isKeyOf_removeKey_of_ne _ _ _ hk heq)
          · exact Or.inr ((mem_insertProcessed _ _ _).mpr (Or.inl hmem))
        · exact hin
    | fail h0 now =>
        simp only [applyOp, markActionFailed]
        split
        · dsimp only
          rcases hin with hk | hmem
          · exact Or.inl (by
              rw [isKeyOf_map_keyFix _ _ (fun kv => by split <;> rfl)]
              exact hk)
          · exact Or.inr hmem
        · exact hin
    | wipe => exact absurd rfl hne2

/-- C1 witness: concrete uses of both parts of the amended invariant. -/
theorem c1_amended_witness :
    ("H1".data ∉ (runOps [.enq (.Tip "a".data 5 "H1".data "u".data) 0]).processed) ∧
    (isKeyOf (applyOp ⟨[("H1".data, ⟨.Tip "a".data 5 "H1".data "u".data, 0, 0, false⟩)], []⟩
        (.fail "H1".data 3)).pending "H1".data = true ∨
      "H1".data ∈ (applyOp ⟨[("H1".data, ⟨.Tip "a".data 5 "H1".data "u".data, 0, 0, false⟩)], []⟩
        (.fail "H1".data 3)).processed) :=
  ⟨c1_amended.1 [.enq (.Tip "a".data 5 "H1".data "u".data) 0] "H1".data (by decide),
   c1_amended.2 ⟨[("H1".data, ⟨.Tip "a".data 5 "H1".data "u".data, 0, 0, false⟩)], []⟩
     (.fail "H1".data 3) "H1".data (by decide) (by decide) (Or.inl (by decide))⟩

/-- C1 counterexample: a tx hash admitted by a successful enqueue is in
neither the pending map nor the processed set after a dequeue, refuting the
"never in neither once admitted" half of the claim. -/
theorem c1_counterexample :
    (enqueueAction QState.empty 0 (.Tip "a".data 5 "H1".data "u".data)).1 = .ok () ∧
    isKeyOf (runOps [.enq (.Tip "a".data 5 "H1".data "u".data) 0, .deq]).pending "H1".data
      = false ∧
    "H1".data ∉ (runOps [.enq (.Tip "a".data 5 "H1".data "u".data) 0, .deq]).processed :=
  ⟨rfl, by decide, by decide⟩

/-- C3: from a state where the tx hash is in neither the pending map nor the
processed set, enqueuing the same action twice yields one success and one
AlreadyExists, and the pending map grows by exactly one entry. -/
theorem c3_enqueue_twice (s : QState) (a : PendingAction) (n1 n2 : Nat)
    (hp : isKeyOf s.pending (actionTxHash a) = false)
    (hq : s.processed.contains (actionTxHash a) = false) :
    (enqueueAction s n1 a).1 = .ok () ∧
    (enqueueAction (enqueueAction s n1 a).2 n2 a).1 = .error .AlreadyExists ∧
    queueSize (enqueueAction (enqueueAction s n1 a).2 n2 a).2 = queueSize s + 1 := by
  have hq' : actionTxHash a ∉ s.processed := by simpa using hq
  have h1 : enqueueAction s n1 a
      = (.ok (), { s with pending := s.pending ++ [(actionTxHash a, ⟨a, 0, n1, false⟩)] }) := by
    simp [enqueueAction, hp, hq']
  have hkey : isKeyOf (s.pending ++ [(actionTxHash a, ⟨a, 0, n1, false⟩)]) (actionTxHash a)
      = true := isKeyOf_append_self _ _ _
  have h2 : enqueueAction (enqueueAction s n1 a).2 n2 a
      = (.error .AlreadyExists, (enqueueAction s n1 a).2) := by
    rw [h1]
    simp [enqueueAction, hkey]
  refine ⟨by rw [h1], by rw [h2, h1], ?_⟩
  rw [h2, h1]
  simp [queueSize]

/-- C3 witness: the double-enqueue property at a concrete tip action on the
empty store. -/
theorem c3_enqueue_twice_witness :
    (enqueueAction QState.empty 0 (.Tip "a".data 7 "H3".data "u".data)).1 = .ok () ∧
    (enqueueAction (enqueueAction QState.empty 0 (.Tip "a".data 7 "H3".data "u".data)).2 1
        (.Tip "a".data 7 "H3".data "u".data)).1 = .error .AlreadyExists ∧
    queueSize (enqueueAction (enqueueAction QState.empty 0 (.Tip "a".data 7 "H3".data "u".data)).2 1
        (.Tip "a".data 7 "H3".data "u".data)).2 = queueSize QState.empty + 1 :=
  c3_enqueue_twice QState.empty (.Tip "a".data 7 "H3".data "u".data) 0 1 (by decide) (by decide)

/-- C4 counterexample: in the spec scenario an admitted tip action is
enqueued and dequeued; the dequeue has already removed the entry, so the
subsequent failure report returns NotFound and the pending map is empty,
not a size-one map with a failed, once-retried entry. -/
theorem c4_counterexample :
    (enqueueAction QState.empty 0 (.Tip "artist".data 2000000 "H4".data "abc123".data)).1
      = .ok () ∧
    (dequeuePendingAction
        (enqueueAction QState.empty 0 (.Tip "artist".data 2000000 "H4".data "abc123".data)).2).1
      = some (.Tip "artist".data 2000000 "H4".data "abc123".data) ∧
    (markActionFailed
        (dequeuePendingAction
          (enqueueAction QState.empty 0 (.Tip "artist".data 2000000 "H4".data "abc123".data)).2).2
        "H4".data 1).1 = .error .NotFound ∧
    queueSize (markActionFailed
        (dequeuePendingAction
          (enqueueAction QState.empty 0 (.Tip "artist".data 2000000 "H4".data "abc123".data)).2).2
        "H4".data 1).2 = 0 :=
  ⟨rfl, rfl, rfl, rfl⟩

/-- C4 (amended): dequeue on a non-empty pending map removes and returns the
first entry whatever its failed flag; and in the spec scenario the dequeued
entry is gone, so reporting the dispatch failure returns NotFound and the
pending map stays empty. -/
theorem c4_amended :
    (∀ (s : QState) (h : Str) (w : ActionWrapper) (rest : List (Str × ActionWrapper)),
        s.pending = (h, w) :: rest →
        (dequeuePendingAction s).1 = some w.action ∧
        isKeyOf (dequeuePendingAction s).2.pending h = false) ∧
    (∀ (a : PendingAction) (n1 n2 : Nat),
        (markActionFailed (dequeuePendingAction (enqueueAction QState.empty n1 a).2).2
            (actionTxHash a) n2).1 = .error .NotFound ∧
        queueSize (markActionFailed (dequeuePendingAction (enqueueAction QState.empty n1 a).2).2
            (actionTxHash a) n2).2 = 0) := by
  constructor
  · intro s h w rest hp
    unfold dequeuePendingAction
    rw [hp]
    dsimp only
    constructor
    · rfl
    · by_contra hk
      rw [Bool.not_eq_false] at hk
      exact absurd rfl (isKeyOf_removeKey _ _ _ hk).2
  · intro a n1 n2
    have h1 : (enqueueAction QState.empty n1 a).2
        = { pending := [(actionTxHash a, ⟨a, 0, n1, false⟩)], processed := [] } := by
      simp [enqueueAction, QState.empty, isKeyOf]
    have h2 : (dequeuePendingAction (enqueueAction QState.empty n1 a).2).2
        = { pending := [], processed := [] } := by
      rw [h1]
      simp [dequeuePendingAction, removeKey]
    rw [h2]
    exact ⟨rfl, rfl⟩

/-- C4 witness: both amended parts at a concrete failed entry and a concrete
tip action. -/
theorem c4_amended_witness :
    ((dequeuePendingAction ⟨[("H4".data, ⟨.Tip "a".data 5 "H4".data "u".data, 2, 0, true⟩)], []⟩).1
      = some (.Tip "a".data 5 "H4".data "u".data) ∧
     isKeyOf (dequeuePendingAction
        ⟨[("H4".data, ⟨.Tip "a".data 5 "H4".data "u".data, 2, 0, true⟩)], []⟩).2.pending "H4".data
      = false) ∧
    ((markActionFailed (dequeuePendingAction
          (enqueueAction QState.empty 0 (.Tip "a".data 5 "H4".data "u".data)).2).2
        "H4".data 1).1 = .error .NotFound ∧
     queueSize (markActionFailed (dequeuePendingAction
          (enqueueAction QState.empty 0 (.Tip "a".data 5 "H4".data "u".data)).2).2
        "H4".data 1).2 = 0) :=
  ⟨c4_amended.1 ⟨[("H4".data, ⟨.Tip "a".data 5 "H4".data "u".data, 2, 0, true⟩)], []⟩
      "H4".data ⟨.Tip "a".data 5 "H4".data "u".data, 2, 0, true⟩ [] rfl,
   c4_amended.2 (.Tip "a".data 5 "H4".data "u".data) 0 1⟩

/-- C10 counterexample: a TokenSwap verified transaction whose hash is
already pending is rejected with AlreadyExists, not ParseError, refuting the
claim's universal "returns Err(ParseError)". -/
theorem c10_counterexample :
    (enqueueVerifiedTx ⟨[("HA".data, ⟨.Tip "a".data 5 "HA".data "u".data, 0, 0, false⟩)], []⟩ 0
        ⟨"HA".data, .TokenSwap, "s".data, 5, ⟨.TokenSwap, none, none, none⟩, 0⟩).1
      = .error .AlreadyExists ∧
    QueueError.AlreadyExists ≠ QueueError.ParseError :=
  ⟨rfl, by decide⟩

/-- C10 (amended): the verified-transaction enqueue of a TokenSwap action
never mutates the store and always fails, with exactly the error
AlreadyExists when the tx hash is already in the pending map or the
processed set and exactly ParseError when it is in neither. -/
theorem c10_amended (s : QState) (now : Nat) (tx : VerifiedXRPLTx)
    (hswap : tx.action = .TokenSwap) :
    (enqueueVerifiedTx s now tx).2 = s ∧
    (enqueueVerifiedTx s now tx).1 =
      (if actionExists s tx.tx_hash then Except.error .AlreadyExists
       else Except.error .ParseError) := by
  by_cases h1 : isKeyOf s.pending tx.tx_hash = true
  · have he : enqueueVerifiedTx s now tx = (.error .AlreadyExists, s) := by
      simp only [enqueueVerifiedTx, if_pos h1]
    rw [he]
    exact ⟨rfl, by rw [if_pos (show actionExists s tx.tx_hash = true by
      simp only [actionExists, h1, Bool.true_or])]⟩
  · by_cases h2 : s.processed.contains tx.tx_hash = true
    · have he : enqueueVerifiedTx s now tx = (.error .AlreadyExists, s) := by
        simp only [enqueueVerifiedTx, if_neg h1, if_pos h2]
      rw [he]
      exact ⟨rfl, by rw [if_pos (show actionExists s tx.tx_hash = true by
        simp only [actionExists, h2, Bool.or_true])]⟩
    · have he : enqueueVerifiedTx s now tx = (.error .ParseError, s) := by
        simp only [enqueueVerifiedTx, if_neg h1, if_neg h2, hswap]
      rw [he]
      have hnot : ¬ actionExists s tx.tx_hash = true := by
        simp only [actionExists, Bool.or_eq_true, not_or]
        exact ⟨h1, h2⟩
      exact ⟨rfl, by rw [if_neg hnot]⟩

/-- C10 witness: the theorem applied twice concretely — a fresh TokenSwap
verified transaction on the empty store is rejected with ParseError, and the
same transaction against a store already holding its hash is rejected with
AlreadyExists, the store unchanged in both cases. -/
theorem c10_amended_witness :
    ((enqueueVerifiedTx QState.empty 0
        ⟨"HA".data, .TokenSwap, "s".data, 5, ⟨.TokenSwap, none, none, none⟩, 0⟩).2
      = QState.empty ∧
     (enqueueVerifiedTx QState.empty 0
        ⟨"HA".data, .TokenSwap, "s".data, 5, ⟨.TokenSwap, none, none, none⟩, 0⟩).1
      = (if actionExists QState.empty "HA".data then Except.error .AlreadyExists
         else Except.error .ParseError)) ∧
    ((enqueueVerifiedTx ⟨[("HA".data, ⟨.Tip "a".data 5 "HA".data "u".data, 0, 0, false⟩)], []⟩ 0
        ⟨"HA".data, .TokenSwap, "s".data, 5, ⟨.TokenSwap, none, none, none⟩, 0⟩).2
      = ⟨[("HA".data, ⟨.Tip "a".data 5 "HA".data "u".data, 0, 0, false⟩)], []⟩ ∧
     (enqueueVerifiedTx ⟨[("HA".data, ⟨.Tip "a".data 5 "HA".data "u".data, 0, 0, false⟩)], []⟩ 0
        ⟨"HA".data, .TokenSwap, "s".data, 5, ⟨.TokenSwap, none, none, none⟩, 0⟩).1
      = (if actionExists ⟨[("HA".data, ⟨.Tip "a".data 5 "HA".data "u".data, 0, 0, false⟩)], []⟩
            "HA".data then Except.error .AlreadyExists
         else Except.error .ParseError)) :=
  ⟨c10_amended QState.empty 0
      ⟨"HA".data, .TokenSwap, "s".data, 5, ⟨.TokenSwap, none, none, none⟩, 0⟩ rfl,
   c10_amended ⟨[("HA".data, ⟨.Tip "a".data 5 "HA".data "u".data, 0, 0, false⟩)], []⟩ 0
      ⟨"HA".data, .TokenSwap, "s".data, 5, ⟨.TokenSwap, none, none, none⟩, 0⟩ rfl⟩

theorem splitOn_char_ne_nil (sep : Char) (l : Str) : l.splitOn sep ≠ [] := by
  simp only [List.splitOn]
  exact List.splitOnP_ne_nil _ _

theorem parseMemoStage_error (memo : Str) (e : VerifierErrorT)
    (h : parseMemoStage memo = .error e) : e = .UnknownAction := by
  unfold parseMemoStage at h
  cases hp : memo.splitOn '|' with
  | nil => exact absurd hp (splitOn_char_ne_nil '|' memo)
  | cons p0 rest =>
      rw [hp] at h
      dsimp only at h
      by_cases h1 : p0 = "TIP".data
      · simp [h1] at h
      · by_cases h2 : p0 = "NFT".data
        · simp [h1, h2] at h
        · by_cases h3 : p0 = "SWAP".data
          · simp [h1, h2, h3] at h
          · simp only [if_neg h1, if_neg h2, if_neg h3] at h
            exact (Except.error.injEq _ _).mp h.symm

theorem verifyCandidateTx_state (st : VerifState) (now : Nat) (tx : CandidateXRPLTx)
    (hfresh : st.replay.contains tx.tx_hash = false) :
    (verifyCandidateTx st now tx).2 = { st with replay := tx.tx_hash :: st.replay } := by
  have hfresh' : tx.tx_hash ∉ st.replay := by simpa using hfresh
  have hrep : isReplayStep tx.tx_hash st.replay = (false, tx.tx_hash :: st.replay) := by
    simp [isReplayStep, hfresh']
  cases hpt : parseTag tx with
  | none => simp [verifyCandidateTx, hrep, hpt]
  | some a =>
      cases hpm : parseMemoStage tx.memo with
      | error e => simp [verifyCandidateTx, hrep, hpt, hpm]
      | ok m =>
          simp only [verifyCandidateTx, hrep, hpt, hpm]
          split_ifs <;> simp

theorem verifyCandidateTx_replayed (st : VerifState) (now : Nat) (tx : CandidateXRPLTx)
    (hrep : st.replay.contains tx.tx_hash = true) :
    verifyCandidateTx st now tx = (.error (.ReplayDetected tx.tx_hash), st) := by
  have hmem : tx.tx_hash ∈ st.replay := by simpa using hrep
  have h : isReplayStep tx.tx_hash st.replay = (true, st.replay) := by
    simp [isReplayStep, hmem]
  simp [verifyCandidateTx, h]

/-- C2: a candidate that passes all five verification stages is admitted as
a verified transaction, and any second admission attempt with the same tx
hash — whatever its other fields — is rejected as a replay. -/
theorem c2_admit_then_replay (st : VerifState) (now1 now2 : Nat) (tx tx2 : CandidateXRPLTx)
    (hfresh : st.replay.contains tx.tx_hash = false)
    (htag : (parseTag tx).isSome = true)
    (hmemo : (parseMemoStage tx.memo).isOk = true)
    (hamt : validateAmount tx 1000 = true)
    (hdest : isBridgeDestination st.bridgeAddr tx.destination = true)
    (hsame : tx2.tx_hash = tx.tx_hash) :
    ((verifyCandidateTx st now1 tx).1).isOk = true ∧
    (verifyCandidateTx (verifyCandidateTx st now1 tx).2 now2 tx2).1
      = .error (.ReplayDetected tx2.tx_hash) := by
  have hfresh' : tx.tx_hash ∉ st.replay := by simpa using hfresh
  have hrep : isReplayStep tx.tx_hash st.replay = (false, tx.tx_hash :: st.replay) := by
    simp [isReplayStep, hfresh']
  obtain ⟨a, ha⟩ := Option.isSome_iff_exists.mp htag
  obtain ⟨m, hm⟩ : ∃ m, parseMemoStage tx.memo = .ok m := by
    cases hpm : parseMemoStage tx.memo with
    | ok m => exact ⟨m, rfl⟩
    | error e => rw [hpm] at hmemo; simp [Except.isOk, Except.toBool] at hmemo
  constructor
  · simp only [verifyCandidateTx, hrep, ha, hm]
    simp [hamt, hdest, Except.isOk, Except.toBool]
  · have hst := verifyCandidateTx_state st now1 tx hfresh
    have hrep2 : (verifyCandidateTx st now1 tx).2.replay.contains tx2.tx_hash = true := by
      rw [hst, hsame]
      simp
    rw [verifyCandidateTx_replayed _ now2 tx2 hrep2]

/-- C2 witness: a concrete tip candidate passing all five stages, then a
replayed copy. -/
theorem c2_admit_then_replay_witness :
    ((verifyCandidateTx ⟨[], some "RBRIDGE".data⟩ 7
        ⟨"H2".data, "s".data, "rBridge".data, some 1001, 2000000,
          "TIP|ARTIST:alice|UUID:u1".data⟩).1).isOk = true ∧
    (verifyCandidateTx
        (verifyCandidateTx ⟨[], some "RBRIDGE".data⟩ 7
          ⟨"H2".data, "s".data, "rBridge".data, some 1001, 2000000,
            "TIP|ARTIST:alice|UUID:u1".data⟩).2 8
        ⟨"H2".data, "x".data, "y".data, some 9, 1,
          "junk".data⟩).1
      = .error (.ReplayDetected "H2".data) :=
  c2_admit_then_replay ⟨[], some "RBRIDGE".data⟩ 7 8
    ⟨"H2".data, "s".data, "rBridge".data, some 1001, 2000000, "TIP|ARTIST:alice|UUID:u1".data⟩
    ⟨"H2".data, "x".data, "y".data, some 9, 1, "junk".data⟩
    (by decide) (by decide) (by decide) (by decide) (by decide) rfl

/-- C9: a fresh candidate that the verifier rejects after the replay stage
is still recorded in the replay set, so every later admission attempt with
the same tx hash is rejected as a replay. -/
theorem c9_rejected_still_replay_recorded (st : VerifState) (now : Nat)
    (tx : CandidateXRPLTx) (e : VerifierErrorT)
    (hfresh : st.replay.contains tx.tx_hash = false)
    (herr : (verifyCandidateTx st now tx).1 = .error e) :
    (∀ h, e ≠ .ReplayDetected h) ∧
    (verifyCandidateTx st now tx).2.replay.contains tx.tx_hash = true ∧
    (∀ (now2 : Nat) (tx2 : CandidateXRPLTx), tx2.tx_hash = tx.tx_hash →
      (verifyCandidateTx (verifyCandidateTx st now tx).2 now2 tx2).1
        = .error (.ReplayDetected tx2.tx_hash)) := by
  have hfresh' : tx.tx_hash ∉ st.replay := by simpa using hfresh
  have hrep : isReplayStep tx.tx_hash st.replay = (false, tx.tx_hash :: st.replay) := by
    simp [isReplayStep, hfresh']
  have hst := verifyCandidateTx_state st now tx hfresh
  have hcont : (verifyCandidateTx st now tx).2.replay.contains tx.tx_hash = true := by
    rw [hst]
    simp
  refine ⟨?_, hcont, ?_⟩
  · simp only [verifyCandidateTx, hrep] at herr
    cases hpt : parseTag tx with
    | none =>
        rw [hpt] at herr
        simp only [Bool.false_eq_true, if_false] at herr
        simp only [Except.error.injEq] at herr
        subst herr
        intro h hc
        cases hc
    | some a =>
        rw [hpt] at herr
        cases hpm : parseMemoStage tx.memo with
        | error e2 =>
            rw [hpm] at herr
            simp only [Bool.false_eq_true, if_false] at herr
            simp only [Except.error.injEq] at herr
            subst herr
            have := parseMemoStage_error tx.memo e2 hpm
            subst this
            intro h hc
            cases hc
        | ok m =>
            rw [hpm] at herr
            simp only [Bool.false_eq_true, if_false] at herr
            split_ifs at herr <;> simp only [Except.error.injEq] at herr
            · subst herr
              intro h hc
              cases hc
            · subst herr
              intro h hc
              cases hc
  · intro now2 tx2 hsame
    have hrep2 : (verifyCandidateTx st now tx).2.replay.contains tx2.tx_hash = true := by
      rw [hst, hsame]
      simp
    rw [verifyCandidateTx_replayed _ now2 tx2 hrep2]

/-- C9 witness: a fresh candidate rejected at the tag stage is recorded and
replay-rejected afterwards. -/
theorem c9_witness :
    ((∀ h, VerifierErrorT.InvalidTag 999 ≠ .ReplayDetected h) ∧
     (verifyCandidateTx ⟨[], some "rB".data⟩ 0
        ⟨"H9".data, "s".data, "rB".data, some 999, 2000, "TIP|UUID:u".data⟩).2.replay.contains
        "H9".data = true ∧
     (∀ (now2 : Nat) (tx2 : CandidateXRPLTx), tx2.tx_hash = "H9".data →
        (verifyCandidateTx
          (verifyCandidateTx ⟨[], some "rB".data⟩ 0
            ⟨"H9".data, "s".data, "rB".data, some 999, 2000, "TIP|UUID:u".data⟩).2 now2 tx2).1
          = .error (.ReplayDetected tx2.tx_hash))) :=
  c9_rejected_still_replay_recorded ⟨[], some "rB".data⟩ 0
    ⟨"H9".data, "s".data, "rB".data, some 999, 2000, "TIP|UUID:u".data⟩
    (.InvalidTag 999) (by decide) rfl

/-- C5 (amended): the memo stage of the verifier succeeds exactly when the
first delimiter-separated segment is TIP, NFT or SWAP (case-sensitive), and
its only error is UnknownAction — never MemoParseFailed or MissingField. -/
theorem c5_amended :
    (∀ memo : Str, (parseMemoStage memo).isOk = true ↔
        (memo.splitOn '|').headI ∈ ["TIP".data, "NFT".data, "SWAP".data]) ∧
    (∀ (memo : Str) (e : VerifierErrorT), parseMemoStage memo = .error e →
        e = .UnknownAction) := by
  constructor
  · intro memo
    cases hp : memo.splitOn '|' with
    | nil => exact absurd hp (splitOn_char_ne_nil '|' memo)
    | cons p0 rest =>
        simp only [parseMemoStage, hp, List.headI]
        by_cases h1 : p0 = "TIP".data
        · simp [h1, Except.isOk, Except.toBool]
        · by_cases h2 : p0 = "NFT".data
          · simp [h1, h2, Except.isOk, Except.toBool]
          · by_cases h3 : p0 = "SWAP".data
            · simp [h1, h2, h3, Except.isOk, Except.toBool]
            · simp [h1, h2, h3, Except.isOk, Except.toBool]
  · exact parseMemoStage_error

/-- C5 witness: the verifier's parser accepts the segment NFT and, applied
to a memo it rejects, the only error it reports is UnknownAction. -/
theorem c5_amended_witness :
    (parseMemoStage "NFT|NFT:1|UUID:u".data).isOk = true ∧
    VerifierErrorT.UnknownAction = .UnknownAction :=
  ⟨(c5_amended.1 "NFT|NFT:1|UUID:u".data).mpr (by decide),
   c5_amended.2 "NFTSALE|NFT:1".data .UnknownAction rfl⟩

/-- C5 counterexample: a candidate reaching stage 3 with the memo segment
NFTSALE — accepted by the memo codec — is rejected by the verifier with
UnknownAction rather than decoded, refuting the claimed TIP / NFTSALE /
TOKENSWAP enumeration and the claimed MemoParseFailed / MissingField error
propagation. -/
theorem c5_counterexample :
    (verifyCandidateTx ⟨[], some "rB".data⟩ 0
        ⟨"H5".data, "s".data, "rB".data, some 2001, 2000,
          "NFTSALE|NFT:1|BUYER:b|UUID:u".data⟩).1
      = .error .UnknownAction ∧
    (parseMemoString "NFTSALE|NFT:1|BUYER:b|UUID:u".data).isOk = true :=
  ⟨rfl, by decide⟩

theorem hasKeyKV_eq_false_of_not_mem (acc : List (Str × Str)) (k : Str)
    (hk : k ∉ acc.map Prod.fst) : hasKeyKV acc k = false := by
  simp only [hasKeyKV, List.any_eq_false, decide_eq_true_eq]
  intro kv hkv hke
  exact hk (hke ▸ List.mem_map_of_mem Prod.fst hkv)

theorem parseFieldsAux_exact (pairs : List (Str × Str)) (acc : List (Str × Str))
    (hnd : (acc.map Prod.fst ++ pairs.map Prod.fst).Nodup)
    (hkeys : ∀ p ∈ pairs, upperStr p.1 = p.1 ∧ ':' ∉ p.1) :
    parseFieldsAux acc (pairs.map (fun kv => kv.1 ++ ':' :: kv.2)) = .ok (acc ++ pairs) := by
  induction pairs generalizing acc with
  | nil => simp [parseFieldsAux]
  | cons p ps ih =>
      obtain ⟨k, v⟩ := p
      simp only [List.map_cons, parseFieldsAux]
      rw [breakAtChar_append ':' k v (hkeys (k, v) (List.mem_cons_self _ _)).2]
      dsimp only
      have h1 : upperStr k = k := (hkeys (k, v) (List.mem_cons_self _ _)).1
      rw [h1]
      have hkA : k ∉ acc.map Prod.fst := by
        have hdisj := List.disjoint_of_nodup_append hnd
        intro hin
        exact hdisj hin (by simp)
      rw [show insertKV acc k v = acc ++ [(k, v)] from by
        simp [insertKV, hasKeyKV_eq_false_of_not_mem acc k hkA]]
      have hnd' : ((acc ++ [(k, v)]).map Prod.fst ++ ps.map Prod.fst).Nodup := by
        simpa [List.append_assoc] using hnd
      have hres := ih (acc ++ [(k, v)]) hnd'
        (fun q hq => hkeys q (List.mem_cons_of_mem _ hq))
      simpa [List.append_assoc] using hres

/-- C6 (amended): decoding an encoded memo reproduces it exactly when its
keys are upper-case, free of the delimiter and the key/value separator, and
pairwise distinct, and its values are free of the delimiter. -/
theorem c6_amended (m : ParsedMemoC)
    (hkeys : ∀ kv ∈ m.fields, upperStr kv.1 = kv.1 ∧ ':' ∉ kv.1 ∧ '|' ∉ kv.1)
    (hvals : ∀ kv ∈ m.fields, '|' ∉ kv.2)
    (hnd : (m.fields.map Prod.fst).Nodup) :
    parseMemoString (reconstructMemo m) = .ok m := by
  obtain ⟨action, fields⟩ := m
  have hsegs : ∀ actionSeg : Str, '|' ∉ actionSeg →
      (List.intercalate ['|']
          (actionSeg :: fields.map (fun kv => kv.1 ++ ':' :: kv.2))).splitOn '|'
        = actionSeg :: fields.map (fun kv => kv.1 ++ ':' :: kv.2) := by
    intro actionSeg hbar
    apply List.splitOn_intercalate
    · intro l hl
      rcases List.mem_cons.mp hl with rfl | hl'
      · exact hbar
      · obtain ⟨kv, hkv, rfl⟩ := List.mem_map.mp hl'
        intro hmem
        rcases List.mem_append.mp hmem with hk | hv
        · exact (hkeys kv hkv).2.2 hk
        · rcases List.mem_cons.mp hv with hc | hv'
          · exact absurd hc (by decide)
          · exact hvals kv hkv hv'
    · simp
  have hfields : parseFieldsAux [] (fields.map (fun kv => kv.1 ++ ':' :: kv.2))
      = .ok fields := by
    have := parseFieldsAux_exact fields [] (by simpa using hnd)
      (fun q hq => ⟨(hkeys q hq).1, (hkeys q hq).2.1⟩)
    simpa using this
  cases action with
  | Tip =>
      simp only [reconstructMemo, parseMemoString, hsegs "TIP".data (by decide)]
      simp [hfields, Except.map]
  | NFTSale =>
      simp only [reconstructMemo, parseMemoString, hsegs "NFTSALE".data (by decide)]
      simp [hfields, Except.map]
  | TokenSwap =>
      simp only [reconstructMemo, parseMemoString, hsegs "TOKENSWAP".data (by decide)]
      simp [hfields, Except.map]

/-- C6 witness: the round trip at a concrete tip memo with upper-case,
separator-free keys. -/
theorem c6_amended_witness :
    parseMemoString (reconstructMemo
        ⟨.Tip, [("ARTIST".data, "x".data), ("UUID".data, "u".data)]⟩)
      = .ok ⟨.Tip, [("ARTIST".data, "x".data), ("UUID".data, "u".data)]⟩ :=
  c6_amended ⟨.Tip, [("ARTIST".data, "x".data), ("UUID".data, "u".data)]⟩
    (by decide) (by decide) (by decide)

/-- C6 counterexample: a memo with the lower-case key a and a value free of
delimiter characters decodes after encoding to the upper-cased key A, so the
round trip does not reproduce the field set. -/
theorem c6_counterexample :
    parseMemoString (reconstructMemo ⟨.Tip, [("a".data, "x".data)]⟩)
      = .ok ⟨.Tip, [("A".data, "x".data)]⟩ ∧
    (⟨.Tip, [("A".data, "x".data)]⟩ : ParsedMemoC) ≠ ⟨.Tip, [("a".data, "x".data)]⟩ ∧
    '|' ∉ "x".data ∧ ':' ∉ "x".data :=
  ⟨rfl, by decide, by decide, by decide⟩

theorem parseU128_ok (val : Str) (hne : stripPlus val ≠ [])
    (hdig : (stripPlus val).all Char.isDigit = true)
    (hlt : natOfDigits (stripPlus val) < 2 ^ 128) :
    parseU128 val = some (natOfDigits (stripPlus val)) := by
  simp only [parseU128]
  rw [if_neg hne, if_pos hdig, if_pos hlt]

theorem parseU128_err (val : Str)
    (hbad : (stripPlus val).all Char.isDigit = false ∨ stripPlus val = [] ∨
      2 ^ 128 ≤ natOfDigits (stripPlus val)) :
    parseU128 val = none := by
  simp only [parseU128]
  rcases hbad with hd | he | hge
  · by_cases he : stripPlus val = []
    · rw [if_pos he]
    · rw [if_neg he, if_neg (by simp [hd])]
  · rw [if_pos he]
  · by_cases he : stripPlus val = []
    · rw [if_pos he]
    · by_cases hd : (stripPlus val).all Char.isDigit = true
      · rw [if_neg he, if_pos hd, if_neg (Nat.not_lt.mpr hge)]
      · rw [if_neg he, if_neg (by simpa using hd)]

/-- C8 (amended): the amount accessor accepts exactly the values consisting
of an optional leading plus sign and decimal digits denoting a natural below
2^128 — which covers values beyond the 64-bit range but not arbitrary
magnitude — and rejects everything else, including negative signs, other
non-digit characters and values at or above 2^128, with the invalid-amount
error. -/
theorem c8_amended :
    (∀ (m : ParsedMemoC) (key val : Str), lookupKV m.fields (upperStr key) = some val →
        stripPlus val ≠ [] → (stripPlus val).all Char.isDigit = true →
        natOfDigits (stripPlus val) < 2 ^ 128 →
        extractNatFromMemo m key = .ok (natOfDigits (stripPlus val))) ∧
    (∀ (m : ParsedMemoC) (key val : Str), lookupKV m.fields (upperStr key) = some val →
        ((stripPlus val).all Char.isDigit = false ∨ stripPlus val = [] ∨
          2 ^ 128 ≤ natOfDigits (stripPlus val)) →
        extractNatFromMemo m key = .error (.InvalidNat val)) := by
  constructor
  · intro m key val hlk hne hdig hlt
    simp only [extractNatFromMemo, hlk, parseU128_ok val hne hdig hlt]
  · intro m key val hlk hbad
    simp only [extractNatFromMemo, hlk, parseU128_err val hbad]

/-- C8 witness: a value beyond the 64-bit range is accepted; a negative
value is rejected with the invalid-amount error. -/
theorem c8_amended_witness :
    extractNatFromMemo ⟨.TokenSwap, [("AMOUNT".data, "18446744073709551616".data)]⟩
        "AMOUNT".data = .ok (natOfDigits (stripPlus "18446744073709551616".data)) ∧
    extractNatFromMemo ⟨.TokenSwap, [("AMOUNT".data, "-5".data)]⟩ "AMOUNT".data
      = .error (.InvalidNat "-5".data) ∧
    2 ^ 64 ≤ natOfDigits (stripPlus "18446744073709551616".data) :=
  ⟨c8_amended.1 ⟨.TokenSwap, [("AMOUNT".data, "18446744073709551616".data)]⟩
      "AMOUNT".data "18446744073709551616".data (by decide) (by decide) (by decide) (by decide),
   c8_amended.2 ⟨.TokenSwap, [("AMOUNT".data, "-5".data)]⟩ "AMOUNT".data "-5".data
      (by decide) (Or.inl (by decide)),
   by decide⟩

/-- C8 counterexample: the decimal string for 2^128 denotes a non-negative
integer, yet the accessor rejects it with the invalid-amount error, refuting
acceptance of arbitrary magnitude. -/
theorem c8_counterexample :
    "340282366920938463463374607431768211456".data.all Char.isDigit = true ∧
    extractNatFromMemo
        ⟨.TokenSwap, [("AMOUNT".data, "340282366920938463463374607431768211456".data)]⟩
        "AMOUNT".data
      = .error (.InvalidNat "340282366920938463463374607431768211456".data) ∧
    2 ^ 64 < natOfDigits "340282366920938463463374607431768211456".data :=
  ⟨by decide, rfl, by decide⟩

/-- C7 (amended): the extraction path admits a raw record exactly when its
type tag is the exact string Payment, a destination tag is present, the memo
text begins with TIP| or SALE|, and the amount parses as a strictly positive
64-bit integer; every other record yields none. -/
theorem c7_amended (tx : XRPLRawTx) :
    (extractCandidate tx).isSome = true ↔
      (tx.tx_type = some "Payment".data ∧ tx.destination_tag.isSome = true ∧
       (∃ m, tx.memo = some m ∧
          ("TIP|".data.isPrefixOf m = true ∨ "SALE|".data.isPrefixOf m = true)) ∧
       (∃ s v, tx.amount = some s ∧ parseU64 s = some v ∧ 0 < v)) := by
  obtain ⟨acc, dst, amt, dtag, tt, hsh, memo, li, sq, ms⟩ := tx
  cases tt with
  | none => simp [extractCandidate, isRelevantPaymentTx]
  | some t =>
      by_cases hP : t = "Payment".data
      · subst hP
        simp only [extractCandidate, isRelevantPaymentTx, processIncomingTx,
          if_neg (by decide : ¬("Payment".data.map Char.toLower ≠ "payment".data)),
          Option.some.injEq]
        cases dtag with
        | none => simp
        | some tag =>
            simp only [Option.isNone_none, Option.isSome_some]
            cases memo with
            | none => simp
            | some m =>
                cases amt with
                | none => simp
                | some s =>
                    cases hpu : parseU64 s with
                    | none => simp [hpu]
                    | some v =>
                        cases hv : decide (v ≠ 0) with
                        | false =>
                            have hv0 : v = 0 := by simpa using hv
                            subst hv0
                            simp [hpu]
                        | true =>
                            have hv0 : v ≠ 0 := by simpa using hv
                            by_cases hpre1 : "TIP|".data.isPrefixOf m = true
                            · have hp1 := List.isPrefixOf_iff_prefix.mp hpre1
                              simp [hpu, hv0, hpre1, hp1, Nat.pos_of_ne_zero hv0]
                            · by_cases hpre2 : "SALE|".data.isPrefixOf m = true
                              · have hp2 := List.isPrefixOf_iff_prefix.mp hpre2
                                simp [hpu, hv0, hpre1, hpre2, hp2, Nat.pos_of_ne_zero hv0]
                              · simp only [ List.isPrefixOf_iff_prefix] at hpre1 hpre2
                                simp [hpu, hv0, hpre1, hpre2]
      · have hext : extractCandidate ⟨acc, dst, amt, dtag, some t, hsh, memo, li, sq, ms⟩
            = none := by
          simp only [extractCandidate, processIncomingTx]
          split <;> simp [hP]
        rw [hext]
        simp [hP]

/-- C7 witness: a Payment record with a destination tag, a TIP| memo and a
positive amount is admitted. -/
theorem c7_amended_witness :
    (extractCandidate ⟨"rA".data, some "rB".data, some "5".data, some 1001,
        some "Payment".data, "H7".data, some "TIP|ARTIST:a".data, 0, 0, none⟩).isSome = true :=
  (c7_amended ⟨"rA".data, some "rB".data, some "5".data, some 1001, some "Payment".data,
      "H7".data, some "TIP|ARTIST:a".data, 0, 0, none⟩).mpr
    ⟨rfl, rfl, ⟨"TIP|ARTIST:a".data, rfl, Or.inl (by decide)⟩,
     ⟨"5".data, 5, rfl, by decide, by decide⟩⟩

/-- C7 counterexample: a record whose memo begins with SALE| — a prefix
denoting none of the claimed kinds TIP, NFTSALE, TOKENSWAP — is admitted by
the extractor, refuting the claimed recognized-prefix set. -/
theorem c7_counterexample :
    (extractCandidate ⟨"rA".data, some "rB".data, some "5".data, some 1001,
        some "Payment".data, "H7".data, some "SALE|NFT:1".data, 0, 0, none⟩).isSome = true ∧
    ¬ ("TIP".data.isPrefixOf "SALE|NFT:1".data = true ∨
       "NFTSALE".data.isPrefixOf "SALE|NFT:1".data = true ∨
       "TOKENSWAP".data.isPrefixOf "SALE|NFT:1".data = true) :=
  ⟨by decide, by decide⟩
